import Mathlib

/-
Verification of the markdown front-matter codec and line-span editor of
jupyblog (src/jupyblog/md.py), as a shallow embedding in Lean.

Conventions of the embedding:
* Python `str` is Lean `String` (a wrapper around `List Char`); character
  level scanning functions are written over `List Char`.
* `str.splitlines` is `splitlinesPy` (handles the newline conventions
  `\n`, `\r\n`, `\r`, which are the ones that occur in markdown text).
* `'\n'.join(...)` is `joinNl`; `str.split('\n')` is `splitNl`.
* Python exceptions are the error side of `Except Err`.  The raise sites
  of md.py map to `Err` constructors as documented at each definition.
* `yaml.safe_load` / `yaml.dump` and dict membership are external
  libraries; functions that use them are parameterized by abstract
  `safeLoad`, `dump`, `hasKey` functions over an abstract metadata type.
-/

/-- Error taxonomy of md.py.  `missingFrontMatter` is the
`ValueError('Markdown file does not have YAML front matter')` raise,
`malformedFrontMatter` is `InvalidFrontMatter` (both raise sites),
`validationError` is the `ValueError(f'missing {field} ...')` raise,
`invalidRange` is the `ValueError('Starting line must be lower ...')`
raise and `lookupFailure` is a Python `KeyError` on a dict lookup. -/
inductive Err where
  | missingFrontMatter
  | malformedFrontMatter
  | validationError
  | invalidRange
  | lookupFailure
  deriving DecidableEq

deriving instance DecidableEq for Except

/-- `str.splitlines` at the character level: splits at `\n`, `\r\n` and
`\r`, no trailing empty piece for a trailing newline. -/
def splitlinesList : List Char → List (List Char)
  | [] => []
  | '\n' :: t => [] :: splitlinesList t
  | ['\r'] => [[]]
  | '\r' :: '\n' :: t => [] :: splitlinesList t
  | '\r' :: c :: t => [] :: splitlinesList (c :: t)
  | c :: t =>
    match splitlinesList t with
    | [] => [[c]]
    | h :: r => (c :: h) :: r

/-- `md.splitlines()`. -/
def splitlinesPy (s : String) : List String :=
  (splitlinesList s.data).map String.mk

/-- `'\n'.join(lines)`. -/
def joinNl : List String → String
  | [] => ""
  | [l] => l
  | l :: ls => l ++ "\n" ++ joinNl ls

/-- `str.split('\n')` at the character level: splits only at `\n` and
keeps empty pieces (so the result is never the empty list). -/
def splitNl : List Char → List (List Char)
  | [] => [[]]
  | '\n' :: t => [] :: splitNl t
  | c :: t =>
    match splitNl t with
    | [] => [[c]]
    | h :: r => (c :: h) :: r

/-- 0-based index of the first occurrence of `t` (list length if absent). -/
def idxOfFirst (t : String) : List String → Nat
  | [] => 0
  | l :: ls => if l = t then 0 else idxOfFirst t ls + 1

/-- The scanning loop of `find_metadata_lines`: collect the indices of
lines equal to `'---'`, stopping as soon as two have been found
(`if len(idx) == 2: break`). -/
def collectTwoMarkers : List String → Nat → List Nat → List Nat
  | [], _, idx => idx
  | l :: rest, i, idx =>
    let idx' := if l = "---" then idx ++ [i] else idx
    if idx'.length = 2 then idx' else collectTwoMarkers rest (i + 1) idx'

/-- `find_metadata_lines(md)` (md.py lines 103-123).  Returns the pair of
0-based line indices of the first two `'---'` marker lines. -/
def findMetadataLines (md : String) : Except Err (Nat × Nat) :=
  match collectTwoMarkers (splitlinesPy md) 0 [] with
  | [] => .error .missingFrontMatter
  | i :: rest =>
    if i ≠ 0 then .error .malformedFrontMatter
    else
      match rest with
      | [] => .error .malformedFrontMatter
      | j :: _ => .ok (i, j)

/-- `validate_metadata(metadata)` (md.py lines 23-28); dict membership is
abstracted by `hasKey`. -/
def validateMetadata {M : Type} (hasKey : M → String → Bool) (metadata : M) :
    Except Err Unit :=
  if !hasKey metadata "title" then .error .validationError
  else if !hasKey metadata "description" then .error .validationError
  else .ok ()

/-- `parse_metadata(md, validate)` (md.py lines 31-41); `yaml.safe_load`
is abstracted by `safeLoad` over an abstract metadata type `M`.  Note the
source feeds `'\n'.join(lines[start:end])` to the YAML parser, which
includes the opening `'---'` line itself. -/
def parseMetadata {M : Type} (safeLoad : String → M)
    (hasKey : M → String → Bool) (validate : Bool) (md : String) :
    Except Err M :=
  match findMetadataLines md with
  | .error e => .error e
  | .ok (s, e) =>
    let metadata := safeLoad (joinNl (((splitlinesPy md).drop s).take (e - s)))
    if validate then
      match validateMetadata hasKey metadata with
      | .error er => .error er
      | .ok _ => .ok metadata
    else .ok metadata

/-- The loop of `find_lines` (md.py lines 44-59): `toFind` plays the role
of the Python set (the caller passes a duplicate-free list), `n` is the
1-based line counter; recording a line removes it from `toFind` and the
scan stops (`break`) when `toFind` is exhausted. -/
def findLinesAux : List String → List String → Nat → List (String × Nat)
  | _, [], _ => []
  | toFind, l :: rest, n =>
    if l ∈ toFind then
      let toFind' := toFind.erase l
      if toFind' = [] then [(l, n)]
      else (l, n) :: findLinesAux toFind' rest (n + 1)
    else
      if toFind = [] then [] else findLinesAux toFind rest (n + 1)

/-- `find_lines(md, to_find)`: a mapping `{line: number}` realized as an
association list in insertion order; `set(to_find)` is `List.dedup`. -/
def findLines (md : String) (toFind : List String) : List (String × Nat) :=
  findLinesAux toFind.dedup (splitlinesPy md) 1

/-- `delete_between_line_no(md, (start, end))` (md.py lines 62-72).  The
line numbers are 1-based naturals, per the function's contract (they come
from `find_lines`); `lines[:start-1] + lines[end:]`. -/
def deleteBetweenLineNo (md : String) (startLine endLine : Nat) :
    Except Err String :=
  if endLine < startLine then .error .invalidRange
  else
    .ok (joinNl ((splitlinesPy md).take (startLine - 1) ++
                 (splitlinesPy md).drop endLine))

/-- `delete_between_line_content(md, to_delete)` (md.py lines 75-87); the
two-element tuple is the pair of arguments `a`, `b` (so the
`len(to_delete) != 2` raise is unreachable); a missing key in the
`find_lines` result is a Python `KeyError`, here `lookupFailure`. -/
def deleteBetweenLineContent (md : String) (a b : String) :
    Except Err String :=
  match (findLines md [a, b]).lookup a, (findLines md [a, b]).lookup b with
  | some s, some e => deleteBetweenLineNo md s e
  | _, _ => .error .lookupFailure

/-- `extract_between_line_content(md, marks)` (md.py lines 90-100):
`'\n'.join(lines[start:end-1])` with the 1-based positions of the two
marks (Python slicing with `start > end-1` yields the empty list, which
Nat subtraction reproduces). -/
def extractBetweenLineContent (md : String) (a b : String) :
    Except Err String :=
  match (findLines md [a, b]).lookup a, (findLines md [a, b]).lookup b with
  | some s, some e =>
    .ok (joinNl (((splitlinesPy md).drop s).take (e - 1 - s)))
  | _, _ => .error .lookupFailure

/-- `delete_metadata(md)` (md.py lines 126-132): any failure of
`find_metadata_lines` is swallowed (`except Exception: return md`). -/
def deleteMetadata (md : String) : String :=
  match findMetadataLines md with
  | .error _ => md
  | .ok (_, e) => joinNl ((splitlinesPy md).drop (e + 1))

/-- `replace_metadata(md, new_metadata)` (md.py lines 135-143);
`yaml.dump` is abstracted by `dump`.  The source builds
`'---\n{}---\n'.format(yaml.dump(new_metadata))` and appends
`'\n'.join(lines[idx[1]+1:])`. -/
def replaceMetadata {M : Type} (dump : M → String) (md : String)
    (newMetadata : M) : Except Err String :=
  match findMetadataLines md with
  | .error e => .error e
  | .ok (_, e2) =>
    .ok ("---\n" ++ dump newMetadata ++ "---\n" ++
         joinNl ((splitlinesPy md).drop (e2 + 1)))

/-- One execution block as yielded by the external snippet executor:
`info` and `text` fields plus the `hide` flag (`block.get('hide')`). -/
structure Block where
  info : String
  text : String
  hide : Bool

/-- The literal fenced block `"```{}\n{}```".format(info, text)` built by
`run_snippets` for a hidden block (md.py lines 301-302). -/
def fenceOf (b : Block) : String :=
  "```" ++ b.info ++ "\n" ++ b.text ++ "```"

/-- Fuel-driven scanner for Python `str.replace(pat, rep)` with a
nonempty pattern: scan left to right; at a position where `pat` is a
prefix, emit `rep` and resume after the pattern (the replacement itself
is not rescanned), otherwise keep one character.  Fuel equal to the text
length suffices since every step consumes at least one character. -/
def pyReplaceGo (pat rep : List Char) : Nat → List Char → List Char
  | _, [] => []
  | 0, rest => rest
  | fuel + 1, c :: t =>
    if !pat.isEmpty && pat.isPrefixOf (c :: t) then
      rep ++ pyReplaceGo pat rep fuel (t.drop (pat.length - 1))
    else
      c :: pyReplaceGo pat rep fuel t

/-- `s.replace(pat, rep)` for nonempty `pat` (the only way md.py calls
it: the pattern is a fenced block or an info string). -/
def pyReplace (s pat rep : String) : String :=
  ⟨pyReplaceGo pat.data rep.data s.data.length s.data⟩

/-- One iteration of the hide loop of `run_snippets` (md.py lines
299-303): `if block.get('hide'): md_out = md_out.replace(to_replace, '')`. -/
def hideOne (b : Block) (mdOut : String) : String :=
  if b.hide then pyReplace mdOut (fenceOf b) "" else mdOut

/-- The hide loop of `run_snippets` over the executor's block sequence. -/
def hideBlocksLoop (blocks : List Block) (mdOut : String) : String :=
  blocks.foldl (fun acc b => hideOne b acc) mdOut

/-- `add_footer` (md.py lines 259-281) restricted to its text-assembly
part: the Jinja template rendering is an external collaborator, so the
already-rendered footer string is a parameter.  The source does
`lines = md_out.split('\n')`, appends `'\n'` when `lines[-1] != '\n'`,
then appends the footer. -/
def addFooter (mdOut footer : String) : String :=
  let lines := splitNl mdOut.data
  let md1 := if lines.getLastD [] = ['\n'] then mdOut else mdOut ++ "\n"
  md1 ++ footer

/-- Spec-side definition (from the words of the claims): the lines kept
when "exactly the lines from s through e inclusive of both boundaries"
are removed — those whose 1-based number is below `s` or above `e`. -/
def linesWithNo : Nat → List String → List (Nat × String)
  | _, [] => []
  | n, l :: ls => (n, l) :: linesWithNo (n + 1) ls

/-- Spec-side companion of `linesWithNo`: see `keptOutsideRange`. -/
def keptOutsideRange (s e : Nat) (lines : List String) : List String :=
  ((linesWithNo 1 lines).filter
    (fun p => decide (p.1 < s) || decide (e < p.1))).map Prod.snd

/-- Spec-side definition (from the words of claim C3): remove only the
first occurrence of `pat` from the text. -/
def removeFirstAux (pat : List Char) : List Char → List Char
  | [] => []
  | c :: t =>
    if pat.isPrefixOf (c :: t) then t.drop (pat.length - 1)
    else c :: removeFirstAux pat t

/-- Spec-side: remove the first occurrence of `pat` from `s`. -/
def removeFirstStr (s pat : String) : String :=
  ⟨removeFirstAux pat.data s.data⟩

/-- A line that contains no line terminator. -/
def lineClean (s : String) : Bool :=
  s.data.all fun c => !(c = '\n' : Bool) && !(c = '\r' : Bool)

/-- The YAML block text made of the given lines, each terminated by a
newline. -/
def yamlBlockText (ylines : List String) : String :=
  ylines.foldr (fun l acc => l ++ "\n" ++ acc) ""

/-- A raw document that begins with two well-formed `'---'` marker lines
(the shape quantified over by claim C2): marker line, YAML lines, marker
line, then arbitrary trailing content `body`. -/
def mkFrontMatterDoc (ylines : List String) (body : String) : String :=
  "---\n" ++ yamlBlockText ylines ++ "---\n" ++ body

/-! Lemmas about the marker scan of `find_metadata_lines`. -/

theorem collectTwoMarkers_not_mem (lines : List String) :
    ∀ i, "---" ∉ lines → collectTwoMarkers lines i [] = [] := by
  induction lines with
  | nil => intro i _; rfl
  | cons l rest ih =>
    intro i h
    have hl : ¬(l = "---") := fun he => h (by simp [he])
    simp only [collectTwoMarkers, if_neg hl]
    have h2 : ¬(([] : List Nat).length = 2) := by decide
    simp only [if_neg h2]
    exact ih (i + 1) (fun hm => h (List.mem_cons_of_mem _ hm))

theorem collectTwoMarkers_one (lines : List String) :
    ∀ i a, collectTwoMarkers lines i [a] =
      if "---" ∈ lines then [a, i + idxOfFirst "---" lines] else [a] := by
  induction lines with
  | nil => intro i a; simp [collectTwoMarkers]
  | cons l rest ih =>
    intro i a
    by_cases hl : l = "---"
    · subst hl
      simp [collectTwoMarkers, idxOfFirst]
    · rw [show collectTwoMarkers (l :: rest) i [a] =
            collectTwoMarkers rest (i + 1) [a] from by
          simp [collectTwoMarkers, hl]]
      rw [ih (i + 1) a]
      by_cases hm : "---" ∈ rest
      · simp only [hm, if_true]
        have hcons : "---" ∈ l :: rest := List.mem_cons_of_mem _ hm
        simp only [hcons, if_true, idxOfFirst, if_neg hl]
        have harith : i + 1 + idxOfFirst "---" rest =
            i + (idxOfFirst "---" rest + 1) := by omega
        rw [harith]
      · have : ¬("---" ∈ l :: rest) := by
          intro hc
          cases hc with
          | head => exact hl rfl
          | tail _ h => exact hm h
        simp [hm, this]

theorem collectTwoMarkers_head (lines : List String) :
    ∀ i, "---" ∈ lines → ∃ tl, collectTwoMarkers lines i [] =
      (i + idxOfFirst "---" lines) :: tl := by
  induction lines with
  | nil => intro i h; cases h
  | cons l rest ih =>
    intro i h
    by_cases hl : l = "---"
    · subst hl
      rw [show collectTwoMarkers ("---" :: rest) i [] =
            collectTwoMarkers rest (i + 1) [i] from by simp [collectTwoMarkers]]
      rw [collectTwoMarkers_one rest (i + 1) i]
      by_cases hm : "---" ∈ rest <;> simp [hm, idxOfFirst]
    · have hm : "---" ∈ rest := by
        cases h with
        | head => exact absurd rfl hl
        | tail _ h => exact h
      rw [show collectTwoMarkers (l :: rest) i [] =
            collectTwoMarkers rest (i + 1) [] from by simp [collectTwoMarkers, hl]]
      obtain ⟨tl, htl⟩ := ih (i + 1) hm
      refine ⟨tl, ?_⟩
      rw [htl]
      have harith : i + 1 + idxOfFirst "---" rest =
          i + idxOfFirst "---" (l :: rest) := by
        simp only [idxOfFirst, if_neg hl]
        omega
      rw [harith]

theorem findMetadataLines_missing (md : String)
    (h : "---" ∉ splitlinesPy md) :
    findMetadataLines md = .error .missingFrontMatter := by
  unfold findMetadataLines
  rw [collectTwoMarkers_not_mem _ 0 h]

theorem findMetadataLines_badstart (md : String) (h : "---" ∈ splitlinesPy md)
    (hh : (splitlinesPy md).head? ≠ some "---") :
    findMetadataLines md = .error .malformedFrontMatter := by
  obtain ⟨tl, htl⟩ := collectTwoMarkers_head (splitlinesPy md) 0 h
  unfold findMetadataLines
  rw [htl]
  have hne : idxOfFirst "---" (splitlinesPy md) ≠ 0 := by
    cases hsp : splitlinesPy md with
    | nil => rw [hsp] at h; cases h
    | cons l ls =>
      rw [hsp] at hh
      have hl : ¬(l = "---") := fun he => hh (by simp [he])
      simp [idxOfFirst, hl]
  simp [hne]

theorem findMetadataLines_noclose (md : String) (rest : List String)
    (hsp : splitlinesPy md = "---" :: rest) (h : "---" ∉ rest) :
    findMetadataLines md = .error .malformedFrontMatter := by
  unfold findMetadataLines
  rw [hsp]
  rw [show collectTwoMarkers ("---" :: rest) 0 [] =
        collectTwoMarkers rest 1 [0] from by simp [collectTwoMarkers]]
  rw [collectTwoMarkers_one rest 1 0]
  simp [h]

theorem findMetadataLines_ok (md : String) (rest : List String)
    (hsp : splitlinesPy md = "---" :: rest) (h : "---" ∈ rest) :
    findMetadataLines md = .ok (0, 1 + idxOfFirst "---" rest) := by
  unfold findMetadataLines
  rw [hsp]
  rw [show collectTwoMarkers ("---" :: rest) 0 [] =
        collectTwoMarkers rest 1 [0] from by simp [collectTwoMarkers]]
  rw [collectTwoMarkers_one rest 1 0]
  simp [h]

theorem findMetadataLines_ok_head (md : String) (p : Nat × Nat)
    (h : findMetadataLines md = .ok p) :
    ∃ rest, splitlinesPy md = "---" :: rest := by
  by_cases hm : "---" ∈ splitlinesPy md
  · cases hsp : splitlinesPy md with
    | nil => rw [hsp] at hm; cases hm
    | cons l ls =>
      by_cases hl : l = "---"
      · exact ⟨ls, by rw [hl]⟩
      · have hb := findMetadataLines_badstart md hm (by rw [hsp]; simp [hl])
        rw [hb] at h; cases h
  · rw [findMetadataLines_missing md hm] at h; cases h

/-! Helper facts about `delete_metadata` and the kept-lines lemma for
`delete_between_line_no`. -/

theorem deleteMetadata_of_error (md : String) (e : Err)
    (h : findMetadataLines md = .error e) : deleteMetadata md = md := by
  unfold deleteMetadata
  rw [h]

theorem deleteMetadata_of_ok (md : String) (s e : Nat)
    (h : findMetadataLines md = .ok (s, e)) :
    deleteMetadata md = joinNl ((splitlinesPy md).drop (e + 1)) := by
  unfold deleteMetadata
  rw [h]

theorem keptOutsideRange_eq (s e : Nat) (hse : s ≤ e + 1) :
    ∀ (lines : List String) (k : Nat),
      ((linesWithNo k lines).filter
        (fun p => decide (p.1 < s) || decide (e < p.1))).map Prod.snd =
      lines.take (s - k) ++ lines.drop (e + 1 - k) := by
  intro lines
  induction lines with
  | nil => intro k; simp [linesWithNo]
  | cons l ls ih =>
    intro k
    by_cases h1 : k < s
    · have hke : k ≤ e := by omega
      have hpred : (decide (k < s) || decide (e < k)) = true := by
        simp [h1]
      simp only [linesWithNo, List.filter_cons, hpred, if_true, List.map_cons]
      rw [ih (k + 1)]
      rw [show s - k = (s - (k + 1)) + 1 by omega]
      rw [show e + 1 - k = (e + 1 - (k + 1)) + 1 by omega]
      rw [List.take_succ_cons, List.drop_succ_cons]
      rfl
    · by_cases h2 : e < k
      · have hpred : (decide (k < s) || decide (e < k)) = true := by
          simp [h2]
        simp only [linesWithNo, List.filter_cons, hpred, if_true,
          List.map_cons]
        rw [ih (k + 1)]
        rw [show s - k = 0 by omega, show s - (k + 1) = 0 by omega,
          show e + 1 - k = 0 by omega, show e + 1 - (k + 1) = 0 by omega]
        simp
      · have hpred : (decide (k < s) || decide (e < k)) = false := by
          simp [h1, h2]
        simp only [linesWithNo, List.filter_cons, hpred, Bool.false_eq_true,
          if_false]
        rw [ih (k + 1)]
        rw [show s - k = 0 by omega, show s - (k + 1) = 0 by omega]
        rw [show e + 1 - k = (e + 1 - (k + 1)) + 1 by omega,
          List.drop_succ_cons]
        simp

/-- C1: for every document, locating the front-matter block fails with
`MissingFrontMatter` when no `'---'` marker line exists anywhere, fails
with `MalformedFrontMatter` when the opening marker is not at line 0 or
no closing marker exists, and otherwise returns the positions of the
first two `'---'` lines (so later literal `'---'` lines are never
misidentified: the returned closing position is the first `'---'` of the
tail). -/
theorem claim_C1 (md : String) :
    ("---" ∉ splitlinesPy md →
      findMetadataLines md = .error .missingFrontMatter)
  ∧ ("---" ∈ splitlinesPy md → (splitlinesPy md).head? ≠ some "---" →
      findMetadataLines md = .error .malformedFrontMatter)
  ∧ (∀ rest, splitlinesPy md = "---" :: rest → "---" ∉ rest →
      findMetadataLines md = .error .malformedFrontMatter)
  ∧ (∀ rest, splitlinesPy md = "---" :: rest → "---" ∈ rest →
      findMetadataLines md = .ok (0, 1 + idxOfFirst "---" rest)) :=
  ⟨findMetadataLines_missing md,
   findMetadataLines_badstart md,
   fun rest hsp h => findMetadataLines_noclose md rest hsp h,
   fun rest hsp h => findMetadataLines_ok md rest hsp h⟩

/-- C1 witness: a document whose body contains a later literal `'---'`
line; the scan still returns the first two marker positions (0, 2). -/
theorem claim_C1_witness :
    findMetadataLines "---\na\n---\nb\n---" = .ok (0, 2) := by
  have h := (claim_C1 "---\na\n---\nb\n---").2.2.2 ["a", "---", "b", "---"]
    (by decide) (by decide)
  have h2 : 1 + idxOfFirst "---" ["a", "---", "b", "---"] = 2 := by decide
  rw [h2] at h
  exact h

/-- C9: `delete_metadata` is total; whenever block location fails — for
any reason, including malformed front matter, not only its absence — the
input is returned unchanged (`except Exception: return md`). -/
theorem claim_C9 (md : String) (e : Err)
    (h : findMetadataLines md = .error e) : deleteMetadata md = md :=
  deleteMetadata_of_error md e h

/-- C9 witness: a malformed document (opening marker not at line 0) is
returned unchanged. -/
theorem claim_C9_witness :
    findMetadataLines "x\n---\ny\n---" = .error .malformedFrontMatter
    ∧ deleteMetadata "x\n---\ny\n---" = "x\n---\ny\n---" :=
  ⟨by decide, claim_C9 "x\n---\ny\n---" .malformedFrontMatter (by decide)⟩

/-- C4 counterexample: deleting twice is NOT always the same as deleting
once.  If the once-stripped document itself begins with a front-matter
shaped block, the second delete strips it again. -/
theorem claim_C4_counterexample :
    deleteMetadata (deleteMetadata "---\na: 1\n---\n---\nb: 2\n---\nrest") ≠
      deleteMetadata "---\na: 1\n---\n---\nb: 2\n---\nrest" := by decide

/-- C4 (amended): front-matter delete is idempotent on every document
whose once-stripped result does not itself start with a `'---'` marker
line; and deleting from a document with no (locatable) front matter
returns it unchanged rather than failing. -/
theorem claim_C4_amended (md : String) :
    ((splitlinesPy (deleteMetadata md)).head? ≠ some "---" →
      deleteMetadata (deleteMetadata md) = deleteMetadata md)
  ∧ (∀ e, findMetadataLines md = .error e → deleteMetadata md = md) := by
  constructor
  · intro hd
    cases hfd : findMetadataLines (deleteMetadata md) with
    | error e => exact deleteMetadata_of_error _ e hfd
    | ok p =>
      obtain ⟨rest, hrest⟩ := findMetadataLines_ok_head _ p hfd
      rw [hrest] at hd
      simp at hd
  · intro e he
    exact deleteMetadata_of_error md e he

/-- C4 witness: stripping a plain document twice, and the no-front-matter
case. -/
theorem claim_C4_witness :
    deleteMetadata (deleteMetadata "---\na\n---\nbody") =
      deleteMetadata "---\na\n---\nbody"
    ∧ deleteMetadata "plain text" = "plain text" :=
  ⟨(claim_C4_amended "---\na\n---\nbody").1 (by decide),
   (claim_C4_amended "plain text").2 .missingFrontMatter (by decide)⟩

/-- C6 counterexample: when content precedes the first marker, replace
FAILS with `MalformedFrontMatter` instead of discarding that content, so
the claim's "rather than the operation failing" is false. -/
theorem claim_C6_counterexample :
    replaceMetadata (fun _ : Unit => "a: 1\n") "intro\n---\na: 1\n---\nbody" ()
      = .error .malformedFrontMatter := by decide

/-- C6 (amended): when the metadata block is locatable (so it starts at
line 0), replace re-serializes the metadata between marker lines and
prepends it to exactly the content following the original closing marker
(the once-stripped document); when content precedes the first marker the
operation fails with `MalformedFrontMatter` (it is not discarded). -/
theorem claim_C6_amended :
    (∀ (M : Type) (dump : M → String) (md : String) (m : M) (s e : Nat),
      findMetadataLines md = .ok (s, e) →
      replaceMetadata dump md m =
        .ok ("---\n" ++ dump m ++ "---\n" ++ deleteMetadata md))
  ∧ (∀ (M : Type) (dump : M → String) (md : String) (m : M),
      "---" ∈ splitlinesPy md → (splitlinesPy md).head? ≠ some "---" →
      replaceMetadata dump md m = .error .malformedFrontMatter) := by
  constructor
  · intro M dump md m s e h
    unfold replaceMetadata
    rw [h, deleteMetadata_of_ok md s e h]
  · intro M dump md m hm hh
    unfold replaceMetadata
    rw [findMetadataLines_badstart md hm hh]

/-- C6 witness: replacement on a well-formed document. -/
theorem claim_C6_witness :
    replaceMetadata (fun _ : Unit => "t: 1\n") "---\na\n---\nbody" () =
      .ok ("---\n" ++ "t: 1\n" ++ "---\n" ++
           deleteMetadata "---\na\n---\nbody") :=
  claim_C6_amended.1 Unit (fun _ => "t: 1\n") "---\na\n---\nbody" () 0 2
    (by decide)

/-- C5: `delete_between_line_no` fails with `InvalidRange` whenever
`e < s`, and otherwise (for 1-based line numbers `1 ≤ s ≤ e`) removes
exactly the lines numbered `s` through `e` inclusive, keeping all lines
whose 1-based number is below `s` or above `e`, in order. -/
theorem claim_C5 (md : String) (s e : Nat) :
    (e < s → deleteBetweenLineNo md s e = .error .invalidRange)
  ∧ (1 ≤ s → s ≤ e →
      deleteBetweenLineNo md s e =
        .ok (joinNl (keptOutsideRange s e (splitlinesPy md)))) := by
  constructor
  · intro h
    unfold deleteBetweenLineNo
    rw [if_pos h]
  · intro h1 hse
    unfold deleteBetweenLineNo
    rw [if_neg (by omega)]
    unfold keptOutsideRange
    rw [keptOutsideRange_eq s e (by omega) (splitlinesPy md) 1]
    rw [show e + 1 - 1 = e by omega]

/-- C5 witness: reversed range fails; range (2,3) on four lines keeps
lines 1 and 4. -/
theorem claim_C5_witness :
    deleteBetweenLineNo "a\nb\nc\nd" 3 2 = .error .invalidRange
    ∧ deleteBetweenLineNo "a\nb\nc\nd" 2 3 =
        .ok (joinNl (keptOutsideRange 2 3 (splitlinesPy "a\nb\nc\nd"))) :=
  ⟨(claim_C5 "a\nb\nc\nd" 3 2).1 (by decide),
   (claim_C5 "a\nb\nc\nd" 2 3).2 (by decide) (by decide)⟩

/-- C10: when both marks occur but the first occurrence of the second
mark precedes that of the first, `extract_between_line_content` returns
the empty text, while `delete_between_line_content` on the same marks
rejects the reversed range with `InvalidRange`. -/
theorem claim_C10 (md : String) (a b : String) (sa sb : Nat)
    (ha : (findLines md [a, b]).lookup a = some sa)
    (hb : (findLines md [a, b]).lookup b = some sb)
    (hlt : sb < sa) :
    extractBetweenLineContent md a b = .ok ""
  ∧ deleteBetweenLineContent md a b = .error .invalidRange := by
  constructor
  · unfold extractBetweenLineContent
    simp only [ha, hb]
    rw [show sb - 1 - sa = 0 by omega]
    simp [joinNl]
  · unfold deleteBetweenLineContent
    simp only [ha, hb]
    unfold deleteBetweenLineNo
    rw [if_pos hlt]

/-- C10 witness: marks "A" and "B" with "B" on the earlier line. -/
theorem claim_C10_witness :
    extractBetweenLineContent "B\nA" "A" "B" = .ok ""
  ∧ deleteBetweenLineContent "B\nA" "A" "B" = .error .invalidRange :=
  claim_C10 "B\nA" "A" "B" 2 1 (by decide) (by decide) (by decide)

/-! Lemmas about the scanning loop of `find_lines`. -/

theorem findLinesAux_nil (lines : List String) (n : Nat) :
    findLinesAux [] lines n = [] := by
  cases lines with
  | nil => rfl
  | cons l rest => simp [findLinesAux]

theorem findLinesAux_lookup (lines : List String) :
    ∀ (toFind : List String) (n : Nat) (t : String), t ∈ toFind →
      (findLinesAux toFind lines n).lookup t =
        if t ∈ lines then some (n + idxOfFirst t lines) else none := by
  induction lines with
  | nil => intro toFind n t ht; simp [findLinesAux]
  | cons l rest ih =>
    intro toFind n t ht
    by_cases hl : l ∈ toFind
    · by_cases he : toFind.erase l = []
      · have hlen : toFind.length = 1 := by
          have h1 := List.length_erase_of_mem hl
          rw [he] at h1
          have h2 : 0 < toFind.length := List.length_pos.mpr
            (fun h0 => by rw [h0] at hl; cases hl)
          simp at h1
          omega
        obtain ⟨x, hx⟩ := List.length_eq_one.mp hlen
        subst hx
        have hxl : x = l := by
          cases hl with
          | head => rfl
          | tail _ h => cases h
        subst hxl
        have htx : t = x := by
          cases ht with
          | head => rfl
          | tail _ h => cases h
        subst htx
        simp [findLinesAux, he, List.lookup, idxOfFirst]
      · by_cases htl : t = l
        · subst htl
          simp [findLinesAux, hl, he, List.lookup, idxOfFirst]
        · have ht' : t ∈ toFind.erase l := (List.mem_erase_of_ne htl).mpr ht
          have hbeq : (t == l) = false := beq_false_of_ne htl
          simp only [findLinesAux, if_pos hl, he, if_neg he, List.lookup,
            hbeq]
          rw [ih (toFind.erase l) (n + 1) t ht']
          have hlt : ¬(l = t) := fun h => htl h.symm
          by_cases hm : t ∈ rest
          · have hmc : t ∈ l :: rest := List.mem_cons_of_mem _ hm
            simp only [hm, if_true, hmc, idxOfFirst, if_neg hlt]
            rw [show n + 1 + idxOfFirst t rest =
              n + (idxOfFirst t rest + 1) by omega]
          · have hmc : ¬(t ∈ l :: rest) := by
              intro hc
              rcases List.mem_cons.mp hc with h | h
              · exact htl h
              · exact hm h
            simp [hm, hmc]
    · have hne : toFind ≠ [] := fun h0 => by rw [h0] at ht; cases ht
      simp only [findLinesAux, if_neg hl, if_neg hne]
      rw [ih toFind (n + 1) t ht]
      have htl : t ≠ l := fun h => hl (h ▸ ht)
      have hlt : ¬(l = t) := fun h => htl h.symm
      by_cases hm : t ∈ rest
      · have hmc : t ∈ l :: rest := List.mem_cons_of_mem _ hm
        simp only [hm, if_true, hmc, idxOfFirst, if_neg hlt]
        rw [show n + 1 + idxOfFirst t rest =
          n + (idxOfFirst t rest + 1) by omega]
      · have hmc : ¬(t ∈ l :: rest) := by
          intro hc
          rcases List.mem_cons.mp hc with h | h
          · exact htl h
          · exact hm h
        simp [hm, hmc]

theorem filter_cons_mem_length (rest : List String) :
    ∀ (toFind : List String) (l : String), toFind.Nodup → l ∈ toFind →
      (toFind.filter (fun t => decide (t ∈ l :: rest))).length =
        1 + ((toFind.erase l).filter (fun t => decide (t ∈ rest))).length := by
  intro toFind
  induction toFind with
  | nil => intro l _ h; cases h
  | cons u us ih =>
    intro l hnd hl
    by_cases hul : u = l
    · subst hul
      rw [List.erase_cons_head]
      have hu : decide (u ∈ u :: rest) = true := by simp
      simp only [List.filter_cons, hu, if_true, List.length_cons]
      have hus : ∀ x ∈ us, decide (x ∈ u :: rest) = decide (x ∈ rest) := by
        intro x hx
        have hxu : ¬(x = u) := fun h => (List.nodup_cons.mp hnd).1 (h ▸ hx)
        simp [List.mem_cons, hxu]
      rw [List.filter_congr hus]
      omega
    · have hl' : l ∈ us := by
        rcases List.mem_cons.mp hl with h | h
        · exact absurd h.symm hul
        · exact h
      have herase : (u :: us).erase l = u :: us.erase l :=
        List.erase_cons_tail (by simp [hul])
      rw [herase]
      have hcond : decide (u ∈ l :: rest) = decide (u ∈ rest) := by
        simp [List.mem_cons, hul]
      have ihr := ih l (List.nodup_cons.mp hnd).2 hl'
      by_cases hur : u ∈ rest
      · have h1 : decide (u ∈ l :: rest) = true := by
          simp [List.mem_cons, hur]
        have h2 : decide (u ∈ rest) = true := by simp [hur]
        simp only [List.filter_cons, h1, h2, if_true, List.length_cons]
        omega
      · have h1 : decide (u ∈ l :: rest) = false := by
          simp [List.mem_cons, hul, hur]
        have h2 : decide (u ∈ rest) = false := by simp [hur]
        simp only [List.filter_cons, h1, h2, Bool.false_eq_true, if_false]
        omega

theorem findLinesAux_length (lines : List String) :
    ∀ (toFind : List String) (n : Nat), toFind.Nodup →
      (findLinesAux toFind lines n).length =
        (toFind.filter (fun t => decide (t ∈ lines))).length := by
  induction lines with
  | nil =>
    intro toFind n _
    rw [findLinesAux]
    have : ∀ x ∈ toFind, decide (x ∈ ([] : List String)) = false := by
      intro x _; simp
    rw [List.filter_congr this]
    simp
  | cons l rest ih =>
    intro toFind n hnd
    by_cases hl : l ∈ toFind
    · have hfilter := filter_cons_mem_length rest toFind l hnd hl
      by_cases he : toFind.erase l = []
      · simp only [findLinesAux, if_pos hl, he, if_pos rfl]
        rw [hfilter, he]
        simp
      · simp only [findLinesAux, if_pos hl, if_neg he, List.length_cons]
        rw [ih (toFind.erase l) (n + 1) (hnd.erase l), hfilter]
        omega
    · have hne : toFind ≠ [] ∨ toFind = [] := em _ |>.symm
      by_cases h0 : toFind = []
      · subst h0
        rw [findLinesAux_nil]
        simp
      · simp only [findLinesAux, if_neg hl, if_neg h0]
        rw [ih toFind (n + 1) hnd]
        have : ∀ x ∈ toFind, decide (x ∈ l :: rest) = decide (x ∈ rest) := by
          intro x hx
          have hxl : ¬(x = l) := fun h => hl (h ▸ hx)
          simp [List.mem_cons, hxl]
        rw [List.filter_congr this]

theorem findLinesAux_stop (pre : List String) :
    ∀ (ext toFind : List String) (n : Nat), toFind.Nodup →
      (∀ t ∈ toFind, t ∈ pre) →
      findLinesAux toFind (pre ++ ext) n = findLinesAux toFind pre n := by
  induction pre with
  | nil =>
    intro ext toFind n _ hall
    have h0 : toFind = [] := List.eq_nil_iff_forall_not_mem.mpr
      (fun x hx => absurd (hall x hx) (List.not_mem_nil x))
    subst h0
    rw [findLinesAux_nil, findLinesAux_nil]
  | cons l pre' ih =>
    intro ext toFind n hnd hall
    by_cases hl : l ∈ toFind
    · by_cases he : toFind.erase l = []
      · simp [findLinesAux, hl, he]
      · simp only [List.cons_append, findLinesAux, if_pos hl, if_neg he]
        congr 1
        apply ih ext (toFind.erase l) (n + 1) (hnd.erase l)
        intro t ht
        have htF : t ∈ toFind := List.mem_of_mem_erase ht
        have htne : t ≠ l := (hnd.mem_erase_iff.mp ht).1
        rcases List.mem_cons.mp (hall t htF) with h | h
        · exact absurd h htne
        · exact h
    · by_cases h0 : toFind = []
      · subst h0
        rw [findLinesAux_nil, findLinesAux_nil]
      · simp only [List.cons_append, findLinesAux, if_neg hl, if_neg h0]
        apply ih ext toFind (n + 1) hnd
        intro t ht
        rcases List.mem_cons.mp (hall t ht) with h | h
        · exact absurd (h ▸ ht) hl
        · exact h

/-- C7: given distinct targets that each occur exactly once in the
document, `find_lines` returns exactly N entries mapping each target to
the 1-based line number of its first occurrence; the scan is insensitive
to any lines after a prefix containing every target (it stops as soon as
all targets are found); and a target that never appears is silently
omitted from the mapping. -/
theorem claim_C7 (md : String) (targets : List String) :
    (targets.Nodup → (∀ t ∈ targets, (splitlinesPy md).count t = 1) →
      (findLines md targets).length = targets.length ∧
      ∀ t ∈ targets, (findLines md targets).lookup t =
        some (idxOfFirst t (splitlinesPy md) + 1))
  ∧ (∀ pre ext, (∀ t ∈ targets, t ∈ pre) →
      findLinesAux targets.dedup (pre ++ ext) 1 =
        findLinesAux targets.dedup pre 1)
  ∧ (∀ t ∈ targets, t ∉ splitlinesPy md →
      (findLines md targets).lookup t = none) := by
  refine ⟨?_, ?_, ?_⟩
  · intro hnd hcount
    constructor
    · rw [findLines,
        findLinesAux_length (splitlinesPy md) targets.dedup 1
          (List.nodup_dedup targets)]
      have hfix : targets.dedup.filter
          (fun t => decide (t ∈ splitlinesPy md)) = targets.dedup := by
        apply List.filter_eq_self.mpr
        intro t ht
        have htT : t ∈ targets := List.mem_dedup.mp ht
        have hpos : 0 < (splitlinesPy md).count t := by
          rw [hcount t htT]; omega
        simp [List.count_pos_iff.mp hpos]
      rw [hfix, hnd.dedup]
    · intro t ht
      have htd : t ∈ targets.dedup := List.mem_dedup.mpr ht
      rw [findLines,
        findLinesAux_lookup (splitlinesPy md) targets.dedup 1 t htd]
      have hpos : 0 < (splitlinesPy md).count t := by
        rw [hcount t ht]; omega
      have hmem : t ∈ splitlinesPy md := List.count_pos_iff.mp hpos
      simp only [hmem, if_true]
      rw [Nat.add_comm]
  · intro pre ext hall
    exact findLinesAux_stop pre ext targets.dedup 1
      (List.nodup_dedup targets)
      (fun t ht => hall t (List.mem_dedup.mp ht))
  · intro t ht hnm
    rw [findLines,
      findLinesAux_lookup (splitlinesPy md) targets.dedup 1 t
        (List.mem_dedup.mpr ht)]
    simp [hnm]

/-- C7 witness: two distinct targets each occurring once. -/
theorem claim_C7_witness :
    (findLines "x\nT1\ny\nT2" ["T1", "T2"]).length =
      (["T1", "T2"] : List String).length
    ∧ ∀ t ∈ (["T1", "T2"] : List String),
        (findLines "x\nT1\ny\nT2" ["T1", "T2"]).lookup t =
          some (idxOfFirst t (splitlinesPy "x\nT1\ny\nT2") + 1) :=
  (claim_C7 "x\nT1\ny\nT2" ["T1", "T2"]).1 (by decide) (by decide)

/-! Lemmas about `str.split('\n')` and the footer separator. -/

theorem splitNl_ne_nil (t : List Char) : splitNl t ≠ [] := by
  induction t with
  | nil => simp [splitNl]
  | cons c t ih =>
    by_cases hc : c = '\n'
    · subst hc; simp [splitNl]
    · cases h : splitNl t with
      | nil => exact absurd h ih
      | cons hd tl => simp [splitNl, hc, h]

theorem splitNl_no_newline (t : List Char) :
    ∀ l ∈ splitNl t, '\n' ∉ l := by
  induction t with
  | nil =>
    intro l hl
    simp only [splitNl, List.mem_singleton] at hl
    subst hl
    simp
  | cons c t ih =>
    intro l hl
    by_cases hc : c = '\n'
    · subst hc
      simp only [splitNl] at hl
      rcases List.mem_cons.mp hl with h | h
      · subst h; simp
      · exact ih l h
    · cases hsp : splitNl t with
      | nil => exact absurd hsp (splitNl_ne_nil t)
      | cons hd tl =>
        rw [show splitNl (c :: t) = (c :: hd) :: tl by
          simp [splitNl, hc, hsp]] at hl
        rcases List.mem_cons.mp hl with h | h
        · subst h
          intro hmem
          rcases List.mem_cons.mp hmem with h2 | h2
          · exact hc h2.symm
          · exact ih hd (by rw [hsp]; exact List.mem_cons_self _ _) h2
        · exact ih l (by rw [hsp]; exact List.mem_cons_of_mem _ h)

theorem getLastD_mem (l : List (List Char)) :
    ∀ d, l ≠ [] → l.getLastD d ∈ l := by
  induction l with
  | nil => intro d h; exact absurd rfl h
  | cons x xs ih =>
    intro d _
    rw [List.getLastD_cons]
    cases xs with
    | nil => simp [List.getLastD]
    | cons y ys =>
      exact List.mem_cons_of_mem _ (ih x (by simp))

theorem strData_append (x y : String) : (x ++ y).data = x.data ++ y.data := by
  cases x; cases y; rfl

theorem strMk_append (x : String) (l : List Char) :
    x ++ String.mk l = String.mk (x.data ++ l) := by
  cases x; rfl

/-- C8 counterexample: with a body that does not end in a newline the
footer follows after a single newline, with NO blank line between text
and footer (one blank line would require the result
`"text" ++ "\n\n" ++ "FOOTER"`); with a body ending in two newlines two
blank lines remain.  So "exactly one blank-line separator" is not
ensured. -/
theorem claim_C8_counterexample :
    addFooter "text" "FOOTER" = "text\nFOOTER"
    ∧ ("text\nFOOTER" : String) ≠ "text" ++ "\n\n" ++ "FOOTER"
    ∧ addFooter "text\n\n" "FOOTER" = "text\n\n\nFOOTER" :=
  ⟨by decide, by decide, by decide⟩

/-- C8 (amended): the guard `lines[-1] != '\n'` is vacuously true — no
piece of a `'\n'`-split ever equals the one-character string `'\n'` — so
`add_footer` always appends exactly one newline and then the footer:
`md_out + '\n' + footer`.  A blank-line separator therefore appears
exactly when the body already ends with a newline, not in general. -/
theorem claim_C8_amended (mdOut footer : String) :
    addFooter mdOut footer = mdOut ++ "\n" ++ footer := by
  unfold addFooter
  have hne := splitNl_ne_nil mdOut.data
  have hmem := getLastD_mem (splitNl mdOut.data) [] hne
  have hnonl := splitNl_no_newline mdOut.data _ hmem
  have hcond : ¬((splitNl mdOut.data).getLastD [] = ['\n']) := by
    intro h
    rw [h] at hnonl
    exact hnonl (List.mem_cons_self _ _)
  simp only [if_neg hcond]

/-! Lemmas about the `str.replace` scanner used by the hide loop. -/

theorem isPrefixOf_append_self (n c : List Char) :
    n.isPrefixOf (n ++ c) = true := by
  induction n with
  | nil => cases c <;> rfl
  | cons a as ih => simp [List.isPrefixOf, ih]

theorem pyReplaceGo_fuel (pat rep : List Char) :
    ∀ (f g : Nat) (t : List Char), t.length ≤ f → t.length ≤ g →
      pyReplaceGo pat rep f t = pyReplaceGo pat rep g t := by
  intro f
  induction f with
  | zero =>
    intro g t hf _
    have h0 : t = [] := List.eq_nil_of_length_eq_zero (by omega)
    subst h0
    cases g <;> rfl
  | succ f ih =>
    intro g t hf hg
    cases t with
    | nil => cases g <;> rfl
    | cons c t' =>
      cases g with
      | zero => simp at hg
      | succ g' =>
        simp only [pyReplaceGo]
        by_cases hcond : (!pat.isEmpty && pat.isPrefixOf (c :: t')) = true
        · rw [if_pos hcond, if_pos hcond]
          congr 1
          apply ih g'
          · have := List.length_drop (pat.length - 1) t'
            simp at hf
            omega
          · have := List.length_drop (pat.length - 1) t'
            simp at hg
            omega
        · rw [if_neg hcond, if_neg hcond]
          congr 1
          apply ih g'
          · simp at hf; omega
          · simp at hg; omega

theorem pyReplaceGo_left (pat : List Char) (hpat : pat ≠ []) :
    ∀ (a c : List Char),
      (∀ i, i < a.length →
        pat.isPrefixOf ((a ++ pat ++ c).drop i) = false) →
      pyReplaceGo pat [] (a ++ pat ++ c).length (a ++ pat ++ c) =
        a ++ pyReplaceGo pat [] c.length c := by
  intro a
  induction a with
  | nil =>
    intro c _
    simp only [List.nil_append]
    cases hp : pat with
    | nil => exact absurd hp hpat
    | cons p pt =>
      simp only [List.cons_append, List.length_cons]
      simp only [pyReplaceGo]
      have hpre : (p :: pt).isPrefixOf (p :: (pt ++ c)) = true := by
        have h := isPrefixOf_append_self (p :: pt) c
        rw [List.cons_append] at h
        exact h
      have hcond : (!(p :: pt).isEmpty &&
          (p :: pt).isPrefixOf (p :: (pt ++ c))) = true := by
        simp [hpre]
      rw [if_pos hcond]
      have hdrop : (pt ++ c).drop ((p :: pt).length - 1) = c := by
        simp only [List.length_cons, Nat.add_sub_cancel]
        exact List.drop_left pt c
      rw [hdrop]
      simp only [List.nil_append]
      apply pyReplaceGo_fuel
      · simp
      · exact Nat.le_refl _
  | cons x a' ih =>
    intro c hleft
    have h0 : pat.isPrefixOf (x :: (a' ++ pat ++ c)) = false := by
      have := hleft 0 (by simp)
      simpa using this
    simp only [List.cons_append, List.length_cons]
    simp only [pyReplaceGo]
    have hcond' : ¬((!pat.isEmpty &&
        pat.isPrefixOf (x :: (a' ++ pat ++ c))) = true) := by
      intro hc
      have h2 := (Bool.and_eq_true _ _ |>.mp hc).2
      rw [h0] at h2
      exact absurd h2 (by decide)
    rw [if_neg hcond']
    have hleft' : ∀ i, i < a'.length →
        pat.isPrefixOf ((a' ++ pat ++ c).drop i) = false := by
      intro i hi
      have := hleft (i + 1) (by simp; omega)
      simpa using this
    rw [ih c hleft']

theorem fenceOf_data_ne_nil (b : Block) : (fenceOf b).data ≠ [] := by
  unfold fenceOf
  rw [strData_append, strData_append, strData_append, strData_append]
  simp [show ("```" : String).data = ['`', '`', '`'] from rfl]

/-- C3 counterexample: Python `str.replace` with no count replaces ALL
occurrences, not only the first; a document holding the hidden fence
twice loses both copies, which differs from removing only the first
occurrence. -/
theorem claim_C3_counterexample :
    hideBlocksLoop [⟨"py", "x\n", true⟩] "A```py\nx\n```B```py\nx\n```C" =
      "ABC"
    ∧ removeFirstStr "A```py\nx\n```B```py\nx\n```C"
        (fenceOf ⟨"py", "x\n", true⟩) = "AB```py\nx\n```C"
    ∧ ("ABC" : String) ≠ "AB```py\nx\n```C" :=
  ⟨by decide, by decide, by decide⟩

/-- C3 (amended): for every block flagged hide, EVERY left-to-right
non-overlapping textual occurrence of the literal fenced block is removed
(a single pass): the text before the leftmost occurrence is kept
verbatim, the occurrence is deleted, and the remainder is processed the
same way. -/
theorem claim_C3_amended (b : Block) (a c : String) (hb : b.hide = true)
    (hleft : ∀ i, i < a.length →
      (fenceOf b).data.isPrefixOf
        ((a ++ fenceOf b ++ c).data.drop i) = false) :
    hideOne b (a ++ fenceOf b ++ c) = a ++ hideOne b c := by
  unfold hideOne
  rw [hb, if_pos rfl, if_pos rfl]
  unfold pyReplace
  rw [strMk_append]
  congr 1
  dsimp only
  simp only [strData_append]
  exact pyReplaceGo_left (fenceOf b).data (fenceOf_data_ne_nil b) a.data
    c.data (by
      intro i hi
      have h := hleft i hi
      simp only [strData_append] at h
      exact h)

/-- C3 witness: one hidden block with text on either side. -/
theorem claim_C3_witness :
    hideOne ⟨"py", "x\n", true⟩ ("A" ++ fenceOf ⟨"py", "x\n", true⟩ ++ "C") =
      "A" ++ hideOne ⟨"py", "x\n", true⟩ "C" :=
  claim_C3_amended ⟨"py", "x\n", true⟩ "A" "C" rfl (by
    intro i hi
    have h1 : ("A" : String).length = 1 := rfl
    have h0 : i = 0 := by omega
    subst h0
    decide)

/-! Lemmas composing `splitlines` over a document built from marker
lines, YAML lines and a body, used for the round-trip claim. -/

theorem strMk_data (s : String) : String.mk s.data = s := by
  cases s; rfl

theorem splitlinesList_append_newline (a : List Char) (b : List Char)
    (hclean : ∀ c ∈ a, ¬(c = '\n') ∧ ¬(c = '\r')) :
    splitlinesList (a ++ '\n' :: b) = a :: splitlinesList b := by
  induction a with
  | nil => simp [splitlinesList]
  | cons c a' ih =>
    obtain ⟨hc1, hc2⟩ := hclean c (List.mem_cons_self _ _)
    have hrest : ∀ x ∈ a', ¬(x = '\n') ∧ ¬(x = '\r') :=
      fun x hx => hclean x (List.mem_cons_of_mem _ hx)
    rw [List.cons_append]
    rw [show splitlinesList (c :: (a' ++ '\n' :: b)) =
        match splitlinesList (a' ++ '\n' :: b) with
        | [] => [[c]]
        | h :: r => (c :: h) :: r by
      simp [splitlinesList, hc1, hc2]]
    rw [ih hrest]

theorem lineClean_spec (s : String) (h : lineClean s = true) :
    ∀ c ∈ s.data, ¬(c = '\n') ∧ ¬(c = '\r') := by
  intro c hc
  have hp := List.all_eq_true.mp h c hc
  simp only [Bool.and_eq_true, Bool.not_eq_true'] at hp
  constructor
  · intro he
    have := hp.1
    rw [he] at this
    simp at this
  · intro he
    have := hp.2
    rw [he] at this
    simp at this

theorem splitlinesList_yaml (ylines : List String) :
    ∀ rest : List Char, (∀ l ∈ ylines, lineClean l = true) →
      splitlinesList ((yamlBlockText ylines).data ++ rest) =
        (ylines.map String.data) ++ splitlinesList rest := by
  induction ylines with
  | nil => intro rest _; simp [yamlBlockText]
  | cons l ls ih =>
    intro rest hclean
    have hfold : yamlBlockText (l :: ls) = l ++ "\n" ++ yamlBlockText ls :=
      rfl
    rw [hfold, strData_append, strData_append]
    have hnl : ("\n" : String).data = ['\n'] := rfl
    rw [hnl]
    rw [List.append_assoc, List.append_assoc]
    rw [show (['\n'] ++ ((yamlBlockText ls).data ++ rest)) =
        '\n' :: ((yamlBlockText ls).data ++ rest) from rfl]
    rw [splitlinesList_append_newline l.data _
      (lineClean_spec l (hclean l (List.mem_cons_self _ _)))]
    rw [ih rest (fun x hx => hclean x (List.mem_cons_of_mem _ hx))]
    rfl

theorem splitlinesPy_mkDoc (ylines : List String) (body : String)
    (hclean : ∀ l ∈ ylines, lineClean l = true) :
    splitlinesPy (mkFrontMatterDoc ylines body) =
      "---" :: (ylines ++ "---" :: splitlinesPy body) := by
  unfold splitlinesPy mkFrontMatterDoc
  have hdoc : ("---\n" ++ yamlBlockText ylines ++ "---\n" ++ body).data =
      ['-', '-', '-'] ++ '\n' :: ((yamlBlockText ylines).data ++
        (['-', '-', '-'] ++ '\n' :: body.data)) := by
    rw [strData_append, strData_append, strData_append]
    rw [show ("---\n" : String).data = ['-', '-', '-', '\n'] from rfl]
    simp only [List.append_assoc, List.cons_append, List.nil_append]
  rw [hdoc]
  rw [splitlinesList_append_newline ['-', '-', '-'] _ (by decide)]
  rw [splitlinesList_yaml ylines _ hclean]
  rw [splitlinesList_append_newline ['-', '-', '-'] _ (by decide)]
  simp only [List.map_cons, List.map_append, List.map_map]
  have h2 : ylines.map (String.mk ∘ String.data) = ylines := by
    have hfun : (String.mk ∘ String.data) = (id : String → String) := by
      funext x
      exact strMk_data x
    rw [hfun, List.map_id]
  rw [h2]

theorem idxOfFirst_append (ylines : List String) (z : List String)
    (h : "---" ∉ ylines) :
    idxOfFirst "---" (ylines ++ "---" :: z) = ylines.length := by
  induction ylines with
  | nil => simp [idxOfFirst]
  | cons l ls ih =>
    have hl : ¬(l = "---") := fun he => h (by simp [he])
    simp only [List.cons_append, idxOfFirst, if_neg hl, List.length_cons]
    show idxOfFirst "---" (ls ++ "---" :: z) + 1 = ls.length + 1
    rw [ih (fun hm => h (List.mem_cons_of_mem _ hm))]

theorem drop_length_add (l1 l2 : List String) (n : Nat) :
    (l1 ++ l2).drop (l1.length + n) = l2.drop n := by
  induction l1 with
  | nil => simp
  | cons x xs ih =>
    rw [List.cons_append, List.length_cons,
      show xs.length + 1 + n = (xs.length + n) + 1 by omega,
      List.drop_succ_cons]
    exact ih

theorem findMetadataLines_mkDoc (ylines : List String) (body : String)
    (hclean : ∀ l ∈ ylines, lineClean l = true) (hnm : "---" ∉ ylines) :
    findMetadataLines (mkFrontMatterDoc ylines body) =
      .ok (0, 1 + ylines.length) := by
  have hsp := splitlinesPy_mkDoc ylines body hclean
  have h2 : "---" ∈ ylines ++ "---" :: splitlinesPy body := by simp
  rw [findMetadataLines_ok _ (ylines ++ "---" :: splitlinesPy body) hsp h2]
  rw [idxOfFirst_append ylines (splitlinesPy body) hnm]

/-- C2 counterexample: for a document whose body ends with a newline the
round trip is NOT byte-identical after the metadata block.  The original
document is the block `"---\ntitle: a\n---\n"` followed by the content
`"body\n"`; parsing and then replacing with the identical metadata (the
dump reproducing the original YAML text) yields the block followed by
`"body"` — the trailing newline is lost by the splitlines/join pass. -/
theorem claim_C2_counterexample :
    parseMetadata (fun s => s) (fun _ _ => true) true
      "---\ntitle: a\n---\nbody\n" = .ok "---\ntitle: a"
    ∧ replaceMetadata (fun _ : String => "title: a\n")
        "---\ntitle: a\n---\nbody\n" "---\ntitle: a" =
        .ok ("---\ntitle: a\n---\n" ++ "body")
    ∧ .ok ("---\ntitle: a\n---\n" ++ "body") ≠
        (.ok ("---\ntitle: a\n---\n" ++ "body\n") : Except Err String) :=
  ⟨by decide, by decide, by decide⟩

/-- C2 (amended): for every raw document beginning with two well-formed
marker lines (marker, newline-free YAML lines, marker, body), parse
followed by replace with the identical metadata reproduces the content
after the metadata block up to trailing-newline normalization: the
trailing content of the result is `'\n'.join(body.splitlines())`, which
is byte-identical to the original body exactly when that join is lossless
on it (for instance when the body does not end with a newline). -/
theorem claim_C2_amended (M : Type) (safeLoad : String → M)
    (hasKey : M → String → Bool) (dump : M → String) (validate : Bool)
    (ylines : List String) (body : String) (m : M)
    (hclean : ∀ l ∈ ylines, lineClean l = true)
    (hnm : "---" ∉ ylines)
    (hparse : parseMetadata safeLoad hasKey validate
      (mkFrontMatterDoc ylines body) = .ok m) :
    replaceMetadata dump (mkFrontMatterDoc ylines body) m =
      .ok ("---\n" ++ dump m ++ "---\n" ++ joinNl (splitlinesPy body))
  ∧ (joinNl (splitlinesPy body) = body →
      replaceMetadata dump (mkFrontMatterDoc ylines body) m =
        .ok ("---\n" ++ dump m ++ "---\n" ++ body)) := by
  have hfind := findMetadataLines_mkDoc ylines body hclean hnm
  have hsp := splitlinesPy_mkDoc ylines body hclean
  have hdrop : (splitlinesPy (mkFrontMatterDoc ylines body)).drop
      (1 + ylines.length + 1) = splitlinesPy body := by
    rw [hsp]
    rw [show 1 + ylines.length + 1 = (ylines.length + 1) + 1 by omega]
    rw [List.drop_succ_cons]
    rw [drop_length_add ylines ("---" :: splitlinesPy body) 1]
    rfl
  constructor
  · unfold replaceMetadata
    rw [hfind]
    show Except.ok ("---\n" ++ dump m ++ "---\n" ++
      joinNl ((splitlinesPy (mkFrontMatterDoc ylines body)).drop
        (1 + ylines.length + 1))) = _
    rw [hdrop]
  · intro hrt
    unfold replaceMetadata
    rw [hfind]
    show Except.ok ("---\n" ++ dump m ++ "---\n" ++
      joinNl ((splitlinesPy (mkFrontMatterDoc ylines body)).drop
        (1 + ylines.length + 1))) = _
    rw [hdrop, hrt]

/-- C2 witness: a one-line YAML block and a body with no trailing
newline; here the round trip is byte-identical. -/
theorem claim_C2_witness :
    replaceMetadata (fun _ : String => "title: a\n")
      (mkFrontMatterDoc ["title: a"] "body") "---\ntitle: a" =
      .ok ("---\n" ++ "title: a\n" ++ "---\n" ++
           joinNl (splitlinesPy "body")) :=
  (claim_C2_amended String (fun s => s) (fun _ _ => true)
    (fun _ => "title: a\n") true ["title: a"] "body" "---\ntitle: a"
    (by decide) (by decide) (by decide)).1
